import Mathlib

/-!
# Verification of the TaskDashboard build script

Shallow embedding of `src/build.py` (the dashboard generator): the task
fetcher's two-pass CSV → category-bucket resolution, the weather fetcher's
fallback, the day-progress section calculator, the progress-bar renderer and
the timezone/time formatting helpers, together with theorems about them.

CSV rows are modelled as records holding the raw string value of each of the
four columns (`row.get(col, default)` in the source: a missing column is the
default string). Python's `str.strip` / `str.lower` / `str.upper` are
modelled by the executable char-list functions `pyStrip` / `pyLower` /
`pyUpper` (ASCII case mapping, as all configured values are ASCII). Mutable
dict/list updates are modelled functionally: the first pass's
`main_tasks[name] = obj` overwrite is the *last* matching entry of the
enumerated main rows, and object identity of task dicts is tracked by the
row index at which the object was created.
-/

namespace TaskDashboard

/-- `CATEGORIES = ["vdpam", "vdl", "personal"]` from the configuration block. -/
def CATEGORIES : List String := ["vdpam", "vdl", "personal"]

/-- `DAY_START = 6`. -/
def DAY_START : Int := 6

/-- `DAY_END = 18`. -/
def DAY_END : Int := 18

/-- `TOTAL_SECTIONS = 12`. -/
def TOTAL_SECTIONS : Nat := 12

/-- Drop leading whitespace characters from a char list. -/
def dropWS : List Char → List Char
  | [] => []
  | c :: cs => if c.isWhitespace then dropWS cs else c :: cs

/-- Python `str.strip()`: drop leading and trailing whitespace. -/
def pyStrip (s : String) : String := ⟨((dropWS s.data).reverse |> dropWS).reverse⟩

/-- Python `str.lower()` (ASCII). -/
def pyLower (s : String) : String := ⟨s.data.map Char.toLower⟩

/-- Python `str.upper()` (ASCII). -/
def pyUpper (s : String) : String := ⟨s.data.map Char.toUpper⟩

/-- One CSV row as seen by `csv.DictReader`: the raw string of each field.
`row.get('category','')`, `row.get('task','')`, `row.get('parent','')`,
`row.get('done','FALSE')` are the four accesses in the source; a missing
column is modelled by storing the corresponding default string. -/
structure Row where
  category : String
  task : String
  parent : String
  done : String
deriving DecidableEq

/-- A subtask dict `{"task": ..., "done": ...}` built in the second pass. -/
structure SubTask where
  task : String
  done : Bool
deriving DecidableEq

/-- A main-task dict `{"task": ..., "done": ..., "subtasks": [...]}`. -/
structure Task where
  task : String
  done : Bool
  subtasks : List SubTask
deriving DecidableEq

/-- `done_raw = row.get('done','FALSE').strip().upper(); done = done_raw == 'TRUE'`. -/
def normDone (s : String) : Bool := pyUpper (pyStrip s) == "TRUE"

/-- `category = row.get('category','').strip().lower()`. -/
def normCat (r : Row) : String := pyLower (pyStrip r.category)

/-- A main-task row: non-empty stripped `task` and empty stripped `parent`
(the guard `if not task_name: continue` followed by `if not parent`). -/
def isMainRow (r : Row) : Bool := !(pyStrip r.task == "") && (pyStrip r.parent == "")

/-- Enumerate rows with their position, starting at `n`: tracks the identity
of the `task_obj` dict created for each main row in the first pass. -/
def enumRowsFrom : Nat → List Row → List (Nat × Row)
  | _, [] => []
  | n, r :: rs => (n, r) :: enumRowsFrom (n + 1) rs

/-- The main rows of the first pass, each tagged with its row index. -/
def mainEntries (rows : List Row) : List (Nat × Row) :=
  (enumRowsFrom 0 rows).filter (fun p => isMainRow p.2)

/-- The main entries whose stripped task name is `n` (the candidates written
to `main_tasks[n]` during the first pass, in pass order). -/
def mainNamed (rows : List Row) (n : String) : List (Nat × Row) :=
  (mainEntries rows).filter (fun p => pyStrip p.2.task == n)

/-- The final value of `main_tasks[n]` after the first pass, identified by
the index of the row that created it: dict assignment overwrites, so it is
the last main row named `n` (`none` when `n ∉ main_tasks`). -/
def mainIndex (rows : List Row) (n : String) : Option Nat :=
  ((mainNamed rows n).getLast?).map Prod.fst

/-- The second-pass rows whose subtask is appended to the task object created
at row `idx`: stripped `parent` non-empty and `parent in main_tasks` resolving
to that object. -/
def subRowsFor (rows : List Row) (idx : Nat) : List Row :=
  rows.filter (fun r => !(pyStrip r.parent == "") && mainIndex rows (pyStrip r.parent) == some idx)

/-- The final `subtasks` list of the task object created at row `idx`:
the second pass appends `{"task": task_name, "done": done}` for each matching
row, in row order. -/
def subtasksFor (rows : List Row) (idx : Nat) : List SubTask :=
  (subRowsFor rows idx).map (fun r => { task := pyStrip r.task, done := normDone r.done })

/-- The task object created for the main entry `p` (index and row), with its
final subtask list. -/
def buildTask (rows : List Row) (p : Nat × Row) : Task :=
  { task := pyStrip p.2.task, done := normDone p.2.done, subtasks := subtasksFor rows p.1 }

/-- The main entries appended to `tasks[c]` by the first pass (the ones whose
normalized category equals `c`), in pass order. -/
def bucketEntriesFor (rows : List Row) (c : String) : List (Nat × Row) :=
  (mainEntries rows).filter (fun p => normCat p.2 == c)

/-- The final value of `tasks[c]`. -/
def bucketFor (rows : List Row) (c : String) : List Task :=
  (bucketEntriesFor rows c).map (buildTask rows)

/-- The dict returned on the success path: `tasks = {cat: [] for cat in
CATEGORIES}` populated by the two passes, modelled as an association list
whose keys are `CATEGORIES` in order. -/
def parseTasks (rows : List Row) : List (String × List Task) :=
  CATEGORIES.map (fun c => (c, bucketFor rows c))

/-- `fetch_tasks_from_sheet`: the fetch/decode/parse outcome is the input;
any exception (`except Exception`) yields `{cat: [] for cat in CATEGORIES}`,
success runs the two-pass resolution. -/
def fetch_tasks_from_sheet : Except String (List Row) → List (String × List Task)
  | Except.error _ => CATEGORIES.map (fun c => (c, ([] : List Task)))
  | Except.ok rows => parseTasks rows

/-- `fetch_weather`: success returns `response.read().decode().strip()`,
any exception returns `"N/A"`. -/
def fetch_weather : Except String String → String
  | Except.error _ => "N/A"
  | Except.ok body => pyStrip body

/-- `get_section(hour)`: the day-progress section for an hour of day. -/
def get_section (hour : Int) : Int × String :=
  if hour < DAY_START then (0, "Before Day")
  else if hour ≥ DAY_END then ((TOTAL_SECTIONS : Int), "Day Complete")
  else (hour - DAY_START + 1,
    "Section " ++ toString (hour - DAY_START + 1) ++ " of " ++ toString TOTAL_SECTIONS)

/-- The CSS class of the `i`-th (1-based) progress box:
`"filled" if i <= section else "empty"`. -/
def boxClass (sec i : Int) : String := if i ≤ sec then "filled" else "empty"

/-- One `<div class="progress-box ...">` element of the progress bar. -/
def progressBox (cls : String) : String :=
  "<div class=\"progress-box " ++ cls ++ "\"></div>\n"

/-- The elements emitted by the `for i in range(1, TOTAL_SECTIONS + 1)` loop
of `render_progress_bar`, in order. -/
def progressBoxes (sec : Int) : List String :=
  (List.range TOTAL_SECTIONS).map (fun k : Nat => progressBox (boxClass sec ((k : Int) + 1)))

/-- `render_progress_bar(section)`: the concatenated progress-bar HTML. -/
def render_progress_bar (sec : Int) : String :=
  String.join (progressBoxes sec)

/-- Python `int(x)` on an exact value: truncation toward zero. -/
def truncRat (q : ℚ) : Int := if 0 ≤ q then ⌊q⌋ else ⌈q⌉

/-- `get_time_for_zone(offset_hours)`: the UTC instant (in minutes) plus
`timedelta(hours=int(offset_hours), minutes=int((offset_hours - hours) * 60))`.
Instants are modelled as total minutes. -/
def get_time_for_zone (utcMinutes : Int) (offset_hours : ℚ) : Int :=
  let hours := truncRat offset_hours
  let minutes := truncRat ((offset_hours - (hours : ℚ)) * 60)
  utcMinutes + hours * 60 + minutes

/-- `datetime.hour` of an instant in total minutes: hour-of-day in `[0, 24)`
(day rollover is floor modulo, as in `datetime` arithmetic). -/
def hourOfInstant (t : Int) : Nat := ((t.emod 1440).toNat) / 60

/-- `datetime.minute` of an instant in total minutes. -/
def minuteOfInstant (t : Int) : Nat := ((t.emod 1440).toNat) % 60

/-- The 12-hour display hour: `if hour == 0: 12 elif hour > 12: hour - 12`. -/
def to12Hour (h : Nat) : Nat := if h == 0 then 12 else if h > 12 then h - 12 else h

/-- `f"{minute:02d}"`: zero-pad to two digits. -/
def pad2 (n : Nat) : String := if n < 10 then "0" ++ toString n else toString n

/-- `'AM' if hour < 12 else 'PM'`. -/
def ampmOf (h : Nat) : String := if h < 12 then "AM" else "PM"

/-- `format_time_short(dt)`: `f"{hour}:{minute:02d}{ampm}"` after the
12-hour adjustment. -/
def format_time_short (t : Int) : String :=
  toString (to12Hour (hourOfInstant t)) ++ ":" ++ pad2 (minuteOfInstant t)
    ++ ampmOf (hourOfInstant t)

end TaskDashboard

namespace TaskDashboard

/-- Number of occurrences of an entry in an entry list (used to state
"appended exactly once"). -/
def countOcc (p : Nat × Row) : List (Nat × Row) → Nat
  | [] => 0
  | q :: l => (if q = p then 1 else 0) + countOcc p l

/-! ## Basic lemmas about the row enumeration -/

theorem countOcc_eq_zero {p : Nat × Row} : ∀ {l : List (Nat × Row)}, p ∉ l → countOcc p l = 0 := by
  intro l
  induction l with
  | nil => intro _; rfl
  | cons q t ih =>
    intro h
    have hq : q ≠ p := fun he => h (he ▸ List.mem_cons_self q t)
    have ht : p ∉ t := fun hm => h (List.mem_cons_of_mem q hm)
    simp [countOcc, hq, ih ht]

theorem countOcc_eq_one {p : Nat × Row} :
    ∀ {l : List (Nat × Row)}, l.Nodup → p ∈ l → countOcc p l = 1 := by
  intro l
  induction l with
  | nil => intro _ h; simp at h
  | cons q t ih =>
    intro hd hm
    rcases List.mem_cons.mp hm with rfl | hm'
    · have : p ∉ t := (List.nodup_cons.mp hd).1
      simp [countOcc, countOcc_eq_zero this]
    · have hq : q ≠ p := fun he => (List.nodup_cons.mp hd).1 (he ▸ hm')
      simp [countOcc, hq, ih (List.nodup_cons.mp hd).2 hm']

theorem mem_enumRowsFrom {n : Nat} {p : Nat × Row} {rows : List Row} :
    p ∈ enumRowsFrom n rows ↔ ∃ k, rows[k]? = some p.2 ∧ p.1 = n + k := by
  induction rows generalizing n with
  | nil => simp [enumRowsFrom]
  | cons a l ih =>
    simp only [enumRowsFrom, List.mem_cons, ih]
    constructor
    · rintro (rfl | ⟨k, hk, h⟩)
      · exact ⟨0, by simp, by omega⟩
      · exact ⟨k + 1, by simpa using hk, by omega⟩
    · rintro ⟨k, hk, h⟩
      cases k with
      | zero =>
        simp only [List.getElem?_cons_zero, Option.some.injEq] at hk
        left
        obtain ⟨i, r⟩ := p
        simp only at hk h
        simp [hk, h]
      | succ k =>
        simp only [List.getElem?_cons_succ] at hk
        exact Or.inr ⟨k, hk, by omega⟩

theorem enumRowsFrom_pairwise (n : Nat) (rows : List Row) :
    (enumRowsFrom n rows).Pairwise (fun p q => p.1 < q.1) := by
  induction rows generalizing n with
  | nil => exact List.Pairwise.nil
  | cons a l ih =>
    refine List.Pairwise.cons (fun q hq => ?_) (ih (n + 1))
    obtain ⟨k, _, h⟩ := mem_enumRowsFrom.mp hq
    simp only [h]
    omega

theorem enumRowsFrom_nodup (n : Nat) (rows : List Row) :
    (enumRowsFrom n rows).Nodup :=
  (enumRowsFrom_pairwise n rows).imp (fun h heq => by subst heq; exact absurd h (lt_irrefl _))

/-! ## Lemmas about the first pass (main entries and the name index) -/

theorem mem_mainEntries {rows : List Row} {p : Nat × Row} :
    p ∈ mainEntries rows ↔ rows[p.1]? = some p.2 ∧ isMainRow p.2 := by
  simp only [mainEntries, List.mem_filter, mem_enumRowsFrom]
  constructor
  · rintro ⟨⟨k, hk, h1⟩, h2⟩
    refine ⟨?_, h2⟩
    have : p.1 = k := by omega
    rwa [this]
  · rintro ⟨h1, h2⟩
    exact ⟨⟨p.1, h1, by omega⟩, h2⟩

theorem mainEntries_pairwise (rows : List Row) :
    (mainEntries rows).Pairwise (fun p q => p.1 < q.1) :=
  (enumRowsFrom_pairwise 0 rows).filter _

theorem mainEntries_nodup (rows : List Row) : (mainEntries rows).Nodup :=
  (enumRowsFrom_nodup 0 rows).filter _

theorem mainEntries_fst_inj {rows : List Row} {i : Nat} {r s : Row}
    (h1 : (i, r) ∈ mainEntries rows) (h2 : (i, s) ∈ mainEntries rows) : r = s := by
  rw [mem_mainEntries] at h1 h2
  exact Option.some.inj ((h1.1.symm).trans h2.1)

theorem mem_bucketEntriesFor {rows : List Row} {c : String} {p : Nat × Row} :
    p ∈ bucketEntriesFor rows c ↔ p ∈ mainEntries rows ∧ normCat p.2 = c := by
  simp [bucketEntriesFor, List.mem_filter]

theorem bucketEntriesFor_nodup (rows : List Row) (c : String) :
    (bucketEntriesFor rows c).Nodup :=
  (mainEntries_nodup rows).filter _

theorem pairwiseLt_getLast_max {l : List (Nat × Row)}
    (hp : l.Pairwise (fun p q => p.1 < q.1)) {x : Nat × Row} (h : l.getLast? = some x) :
    x ∈ l ∧ ∀ y ∈ l, y.1 ≤ x.1 := by
  induction l with
  | nil => simp at h
  | cons a t ih =>
    cases t with
    | nil =>
      simp only [List.getLast?_singleton, Option.some.injEq] at h
      subst h
      refine ⟨List.mem_singleton_self a, fun y hy => ?_⟩
      rw [List.mem_singleton] at hy
      subst hy
      exact le_refl _
    | cons b t' =>
      rw [List.getLast?_cons_cons] at h
      have hp' := List.pairwise_cons.mp hp
      obtain ⟨hx, hmax⟩ := ih hp'.2 h
      refine ⟨List.mem_cons_of_mem a hx, fun y hy => ?_⟩
      rcases List.mem_cons.mp hy with rfl | hy'
      · exact le_of_lt (hp'.1 x hx)
      · exact hmax y hy'

theorem mainNamed_pairwise (rows : List Row) (n : String) :
    (mainNamed rows n).Pairwise (fun p q => p.1 < q.1) :=
  (mainEntries_pairwise rows).filter _

theorem mem_mainNamed {rows : List Row} {n : String} {p : Nat × Row} :
    p ∈ mainNamed rows n ↔ p ∈ mainEntries rows ∧ pyStrip p.2.task = n := by
  simp [mainNamed, List.mem_filter]

/-- `main_tasks[n]` resolves to the object created at row `j` exactly for the
last main row named `n`: that row is a main entry named `n`, and no later main
entry is named `n`. -/
theorem mainIndex_eq_some {rows : List Row} {n : String} {j : Nat}
    (h : mainIndex rows n = some j) :
    ∃ rj, (j, rj) ∈ mainEntries rows ∧ pyStrip rj.task = n ∧
      ∀ p ∈ mainEntries rows, pyStrip p.2.task = n → p.1 ≤ j := by
  unfold mainIndex at h
  obtain ⟨x, hx, hj⟩ : ∃ x, (mainNamed rows n).getLast? = some x ∧ x.1 = j := by
    cases hl : (mainNamed rows n).getLast? with
    | none => rw [hl] at h; simp at h
    | some x =>
      rw [hl] at h
      simp only [Option.map_some', Option.some.injEq] at h
      exact ⟨x, rfl, h⟩
  obtain ⟨hmem, hmax⟩ := pairwiseLt_getLast_max (mainNamed_pairwise rows n) hx
  rw [mem_mainNamed] at hmem
  subst hj
  refine ⟨x.2, hmem.1, hmem.2, fun p hp hpn => ?_⟩
  exact hmax p (mem_mainNamed.mpr ⟨hp, hpn⟩)

/-- `n ∉ main_tasks` exactly when no main entry is named `n`. -/
theorem mainIndex_eq_none {rows : List Row} {n : String}
    (h : mainIndex rows n = none) :
    ∀ p ∈ mainEntries rows, pyStrip p.2.task ≠ n := by
  have hnil : mainNamed rows n = [] := by
    apply List.getLast?_eq_none_iff.mp
    unfold mainIndex at h
    cases hl : (mainNamed rows n).getLast? with
    | none => rfl
    | some x => rw [hl] at h; simp at h
  intro p hp hpn
  have : p ∈ mainNamed rows n := mem_mainNamed.mpr ⟨hp, hpn⟩
  rw [hnil] at this
  simp at this

theorem mainIndex_isSome_of_mem {rows : List Row} {p : Nat × Row}
    (hp : p ∈ mainEntries rows) :
    ∃ j, mainIndex rows (pyStrip p.2.task) = some j := by
  cases h : mainIndex rows (pyStrip p.2.task) with
  | some j => exact ⟨j, rfl⟩
  | none => exact absurd rfl (mainIndex_eq_none h p hp)

/-- Whatever main entry sits at the index `main_tasks[n]` resolves to is
named `n` (indices identify entries uniquely). -/
theorem mainIndex_name {rows : List Row} {n : String} {j : Nat}
    (h : mainIndex rows n = some j) {r : Row} (hr : (j, r) ∈ mainEntries rows) :
    pyStrip r.task = n := by
  obtain ⟨rj, hj, hn, _⟩ := mainIndex_eq_some h
  rw [mainEntries_fst_inj hr hj]
  exact hn

/-! ## Lemmas about the second pass -/

theorem mem_subRowsFor {rows : List Row} {idx : Nat} {s : Row} :
    s ∈ subRowsFor rows idx ↔
      s ∈ rows ∧ pyStrip s.parent ≠ "" ∧ mainIndex rows (pyStrip s.parent) = some idx := by
  simp only [subRowsFor, List.mem_filter, Bool.and_eq_true, Bool.not_eq_true',
    beq_iff_eq, beq_eq_false_iff_ne, and_assoc]

/-- A task object that the final name index does not point to receives no
subtasks in the second pass. -/
theorem subtasksFor_eq_nil {rows : List Row} {i : Nat} {r : Row}
    (hr : (i, r) ∈ mainEntries rows)
    (h : mainIndex rows (pyStrip r.task) ≠ some i) : subtasksFor rows i = [] := by
  unfold subtasksFor
  rw [List.map_eq_nil_iff]
  unfold subRowsFor
  rw [List.filter_eq_nil_iff]
  intro s _
  simp only [Bool.and_eq_true, Bool.not_eq_true', beq_iff_eq, beq_eq_false_iff_ne, not_and]
  intro _ hidx
  obtain ⟨rj, hj, hn, _⟩ := mainIndex_eq_some hidx
  have : rj = r := mainEntries_fst_inj hj hr
  subst this
  rw [hn] at h
  exact h hidx

/-! ## Claim theorems -/

/-- C1: every row with a non-empty (stripped) `task` and empty (stripped)
`parent` is appended exactly once as a main task to the bucket of its
normalized category, and is dropped from all buckets when its category is
not one of `CATEGORIES = [vdpam, vdl, personal]`: for each enumerated
category `c`, the fetcher's bucket for `c` is the image of its entry list,
and this row's entry occurs once in the entry list of its own category and
zero times in every other (hence zero times everywhere when the category is
unknown). -/
theorem c1_main_row_bucketed_once (rows : List Row) (i : Nat) (r : Row)
    (hget : rows[i]? = some r) (htask : pyStrip r.task ≠ "")
    (hparent : pyStrip r.parent = "") :
    ∀ c ∈ CATEGORIES,
      (fetch_tasks_from_sheet (Except.ok rows)).lookup c =
        some ((bucketEntriesFor rows c).map (buildTask rows)) ∧
      countOcc (i, r) (bucketEntriesFor rows c) = (if normCat r = c then 1 else 0) := by
  intro c hc
  have hmem : (i, r) ∈ mainEntries rows := by
    rw [mem_mainEntries]
    refine ⟨hget, ?_⟩
    simp only [isMainRow, Bool.and_eq_true, Bool.not_eq_true', beq_eq_false_iff_ne, beq_iff_eq]
    exact ⟨htask, hparent⟩
  constructor
  · have hc' : c = "vdpam" ∨ c = "vdl" ∨ c = "personal" := by simpa [CATEGORIES] using hc
    rcases hc' with rfl | rfl | rfl
    · rfl
    · rfl
    · rfl
  · by_cases hcat : normCat r = c
    · rw [if_pos hcat]
      exact countOcc_eq_one (bucketEntriesFor_nodup rows c)
        (mem_bucketEntriesFor.mpr ⟨hmem, hcat⟩)
    · rw [if_neg hcat]
      exact countOcc_eq_zero (fun hmem' => hcat (mem_bucketEntriesFor.mp hmem').2)

/-- Witness for C1 at a concrete one-row input. -/
theorem c1_main_row_bucketed_once_witness :
    (fetch_tasks_from_sheet (Except.ok [⟨" VDPAM ", "A", " ", "TRUE"⟩])).lookup "vdpam" =
      some ((bucketEntriesFor [⟨" VDPAM ", "A", " ", "TRUE"⟩] "vdpam").map
        (buildTask [⟨" VDPAM ", "A", " ", "TRUE"⟩])) ∧
    countOcc (0, ⟨" VDPAM ", "A", " ", "TRUE"⟩)
        (bucketEntriesFor [⟨" VDPAM ", "A", " ", "TRUE"⟩] "vdpam") =
      (if normCat ⟨" VDPAM ", "A", " ", "TRUE"⟩ = "vdpam" then 1 else 0) :=
  c1_main_row_bucketed_once [⟨" VDPAM ", "A", " ", "TRUE"⟩] 0 ⟨" VDPAM ", "A", " ", "TRUE"⟩
    (by decide) (by decide) (by decide) "vdpam" (by decide)

/-- C2: a row with a non-empty (stripped) `parent` is attached somewhere in
the second pass iff a main task whose (stripped) name equals the parent
string exactly exists; when attached, the appended `SubTask` carries the
row's stripped name and done flag, and the target object is unique;
otherwise the row is dropped (it belongs to no object's subtask rows). -/
theorem c2_subtask_attached_iff (rows : List Row) (s : Row)
    (hmem : s ∈ rows) (hpar : pyStrip s.parent ≠ "") :
    ((∃ p ∈ mainEntries rows, pyStrip p.2.task = pyStrip s.parent) ↔
      (∃ j, s ∈ subRowsFor rows j)) ∧
    (∀ j, s ∈ subRowsFor rows j →
      (⟨pyStrip s.task, normDone s.done⟩ : SubTask) ∈ subtasksFor rows j) ∧
    (∀ j k, s ∈ subRowsFor rows j → s ∈ subRowsFor rows k → j = k) := by
  refine ⟨⟨?_, ?_⟩, ?_, ?_⟩
  · rintro ⟨p, hp, hname⟩
    obtain ⟨j, hj⟩ := mainIndex_isSome_of_mem hp
    rw [hname] at hj
    exact ⟨j, mem_subRowsFor.mpr ⟨hmem, hpar, hj⟩⟩
  · rintro ⟨j, hj⟩
    obtain ⟨_, _, hidx⟩ := mem_subRowsFor.mp hj
    obtain ⟨rj, hjmem, hn, _⟩ := mainIndex_eq_some hidx
    exact ⟨(j, rj), hjmem, hn⟩
  · intro j hj
    exact List.mem_map_of_mem _ hj
  · intro j k hj hk
    have h1 := (mem_subRowsFor.mp hj).2.2
    have h2 := (mem_subRowsFor.mp hk).2.2
    rw [h1] at h2
    exact Option.some.inj h2

/-- Witness for C2: a subtask row under an existing main task. -/
theorem c2_subtask_attached_iff_witness :
    ((∃ p ∈ mainEntries [⟨"vdl", "A", "", "TRUE"⟩, ⟨"", "s", "A", ""⟩],
        pyStrip p.2.task = pyStrip (Row.mk "" "s" "A" "").parent) ↔
      (∃ j, (Row.mk "" "s" "A" "") ∈ subRowsFor [⟨"vdl", "A", "", "TRUE"⟩, ⟨"", "s", "A", ""⟩] j)) ∧
    (∀ j, (Row.mk "" "s" "A" "") ∈ subRowsFor [⟨"vdl", "A", "", "TRUE"⟩, ⟨"", "s", "A", ""⟩] j →
      (⟨"s", false⟩ : SubTask) ∈ subtasksFor [⟨"vdl", "A", "", "TRUE"⟩, ⟨"", "s", "A", ""⟩] j) ∧
    (∀ j k, (Row.mk "" "s" "A" "") ∈ subRowsFor [⟨"vdl", "A", "", "TRUE"⟩, ⟨"", "s", "A", ""⟩] j →
      (Row.mk "" "s" "A" "") ∈ subRowsFor [⟨"vdl", "A", "", "TRUE"⟩, ⟨"", "s", "A", ""⟩] k → j = k) :=
  c2_subtask_attached_iff [⟨"vdl", "A", "", "TRUE"⟩, ⟨"", "s", "A", ""⟩]
    (Row.mk "" "s" "A" "") (by decide) (by decide)

/-- C3 counterexample: an empty-task row with parent `"A"` *does* contribute
a `SubTask` (with empty name) to main task `"A"`, contradicting the claim
that such a row contributes nothing. -/
theorem c3_counterexample :
    pyStrip (Row.mk "vdpam" " " "A" "TRUE").task = "" ∧
    (fetch_tasks_from_sheet (Except.ok
        [⟨"vdpam", "A", "", "FALSE"⟩, ⟨"vdpam", " ", "A", "TRUE"⟩])).lookup "vdpam" =
      some [⟨"A", false, [⟨"", true⟩]⟩] := by
  decide

/-- C3 amended: a row whose stripped `task` is empty never appears as a main
task in any category bucket (the first pass skips it); but when its stripped
`parent` is non-empty and matches an existing main-task name, the second
pass still appends a `SubTask` with empty name and the row's done flag. -/
theorem c3_empty_task_row (rows : List Row) (i : Nat) (r : Row)
    (hget : rows[i]? = some r) (htask : pyStrip r.task = "") :
    ((i, r) ∉ mainEntries rows) ∧
    (∀ c, (i, r) ∉ bucketEntriesFor rows c) ∧
    (∀ j, pyStrip r.parent ≠ "" → mainIndex rows (pyStrip r.parent) = some j →
      (⟨"", normDone r.done⟩ : SubTask) ∈ subtasksFor rows j) := by
  have hnotmain : (i, r) ∉ mainEntries rows := by
    rw [mem_mainEntries]
    rintro ⟨-, hmain⟩
    simp only [isMainRow, Bool.and_eq_true, Bool.not_eq_true', beq_eq_false_iff_ne,
      beq_iff_eq] at hmain
    exact hmain.1 htask
  refine ⟨hnotmain, fun c hc => hnotmain (mem_bucketEntriesFor.mp hc).1, ?_⟩
  intro j hpar hidx
  have hrmem : r ∈ rows := by
    have := List.getElem?_eq_some_iff.mp hget
    obtain ⟨h, rfl⟩ := this
    exact List.getElem_mem h
  have hsub : r ∈ subRowsFor rows j := mem_subRowsFor.mpr ⟨hrmem, hpar, hidx⟩
  have h2 : ({ task := pyStrip r.task, done := normDone r.done } : SubTask) ∈
      subtasksFor rows j := by
    unfold subtasksFor
    exact List.mem_map_of_mem _ hsub
  rw [htask] at h2
  exact h2

/-- Witness for C3 amended, at the counterexample input. -/
theorem c3_empty_task_row_witness :
    ((1, Row.mk "vdpam" " " "A" "TRUE") ∉
      mainEntries [⟨"vdpam", "A", "", "FALSE"⟩, ⟨"vdpam", " ", "A", "TRUE"⟩]) ∧
    (∀ c, (1, Row.mk "vdpam" " " "A" "TRUE") ∉
      bucketEntriesFor [⟨"vdpam", "A", "", "FALSE"⟩, ⟨"vdpam", " ", "A", "TRUE"⟩] c) ∧
    (∀ j, pyStrip (Row.mk "vdpam" " " "A" "TRUE").parent ≠ "" →
      mainIndex [⟨"vdpam", "A", "", "FALSE"⟩, ⟨"vdpam", " ", "A", "TRUE"⟩]
        (pyStrip (Row.mk "vdpam" " " "A" "TRUE").parent) = some j →
      (⟨"", normDone (Row.mk "vdpam" " " "A" "TRUE").done⟩ : SubTask) ∈
        subtasksFor [⟨"vdpam", "A", "", "FALSE"⟩, ⟨"vdpam", " ", "A", "TRUE"⟩] j) :=
  c3_empty_task_row [⟨"vdpam", "A", "", "FALSE"⟩, ⟨"vdpam", " ", "A", "TRUE"⟩] 1
    (Row.mk "vdpam" " " "A" "TRUE") (by decide) (by decide)

/-- C5: on any fetch error, the task fetcher returns the all-empty-buckets
mapping (every enumerated category mapped to `[]`) and the weather fetcher
returns `"N/A"`. (Both embeddings are total functions of the fetch outcome:
the `except` handlers mean no exception reaches the caller.) -/
theorem c5_error_fallbacks (e : String) :
    fetch_tasks_from_sheet (Except.error e) =
      CATEGORIES.map (fun c => (c, ([] : List Task))) ∧
    (∀ c ∈ CATEGORIES,
      (fetch_tasks_from_sheet (Except.error e)).lookup c = some ([] : List Task)) ∧
    fetch_weather (Except.error e) = "N/A" := by
  refine ⟨rfl, ?_, rfl⟩
  intro c hc
  have hc' : c = "vdpam" ∨ c = "vdl" ∨ c = "personal" := by simpa [CATEGORIES] using hc
  rcases hc' with rfl | rfl | rfl
  · rfl
  · rfl
  · rfl

/-- Witness for C5 at a concrete error. -/
theorem c5_error_fallbacks_witness :
    fetch_tasks_from_sheet (Except.error "timed out") =
      CATEGORIES.map (fun c => (c, ([] : List Task))) ∧
    (fetch_tasks_from_sheet (Except.error "timed out")).lookup "vdl" =
      some ([] : List Task) ∧
    fetch_weather (Except.error "timed out") = "N/A" :=
  ⟨(c5_error_fallbacks "timed out").1,
    (c5_error_fallbacks "timed out").2.1 "vdl" (by decide),
    (c5_error_fallbacks "timed out").2.2⟩

/-- C6: for every input, error or not, the association list returned by the
task fetcher has exactly the keys of `CATEGORIES`, in order. -/
theorem c6_bucket_keys (res : Except String (List Row)) :
    (fetch_tasks_from_sheet res).map Prod.fst = CATEGORIES := by
  cases res with
  | error e => rfl
  | ok rows => rfl

/-- C4: `get_section` returns `(0, "Before Day")` below `DAY_START = 6`,
`(12, "Day Complete")` from `DAY_END = 18` on, and
`(hour - 6 + 1, "Section {index} of 12")` in between; in particular at
hours 5, 6, 17 and 18. -/
theorem c4_get_section_cases (h : Int) :
    (h < DAY_START → get_section h = (0, "Before Day")) ∧
    (h ≥ DAY_END → get_section h = ((TOTAL_SECTIONS : Int), "Day Complete")) ∧
    (DAY_START ≤ h → h < DAY_END →
      get_section h = (h - DAY_START + 1,
        "Section " ++ toString (h - DAY_START + 1) ++ " of " ++ toString TOTAL_SECTIONS)) ∧
    get_section 5 = (0, "Before Day") ∧
    get_section 6 = (1, "Section 1 of 12") ∧
    get_section 17 = (12, "Section 12 of 12") ∧
    get_section 18 = (12, "Day Complete") := by
  refine ⟨?_, ?_, ?_, by decide, by decide, by decide, by decide⟩
  · intro hh
    unfold get_section
    rw [if_pos hh]
  · intro hh
    unfold get_section
    rw [if_neg (by unfold DAY_START; unfold DAY_END at hh; omega), if_pos hh]
  · intro h1 h2
    unfold get_section
    rw [if_neg (by omega), if_neg (by omega)]

/-- Witness for C4 at the boundary hours. -/
theorem c4_get_section_cases_witness :
    get_section 5 = (0, "Before Day") ∧
    get_section 6 = (1, "Section 1 of 12") ∧
    get_section 17 = (12, "Section 12 of 12") ∧
    get_section 18 = (12, "Day Complete") :=
  ⟨(c4_get_section_cases 5).1 (by decide),
    by
      have := (c4_get_section_cases 6).2.2.1 (by decide) (by decide)
      simpa using this,
    by
      have := (c4_get_section_cases 17).2.2.1 (by decide) (by decide)
      simpa using this,
    (c4_get_section_cases 18).2.1 (by decide)⟩

/-- C7: for every integer section value, the progress bar emits exactly
`TOTAL_SECTIONS = 12` progress-box elements, the `i`-th (1-based) of which is
marked `"filled"` iff `i ≤ section` and `"empty"` otherwise; the rendered
string is their concatenation. -/
theorem c7_progress_bar_boxes (sec : Int) :
    render_progress_bar sec = String.join (progressBoxes sec) ∧
    (progressBoxes sec).length = TOTAL_SECTIONS ∧
    (∀ i : Nat, 1 ≤ i → i ≤ TOTAL_SECTIONS →
      (progressBoxes sec)[i - 1]? =
        some (progressBox (if (i : Int) ≤ sec then "filled" else "empty"))) := by
  refine ⟨rfl, by simp [progressBoxes, TOTAL_SECTIONS], ?_⟩
  intro i h1 h2
  have hlt : i - 1 < TOTAL_SECTIONS := by
    unfold TOTAL_SECTIONS
    unfold TOTAL_SECTIONS at h2
    omega
  unfold progressBoxes
  rw [List.getElem?_map, List.getElem?_range hlt]
  have hcast : ((i - 1 : Nat) : Int) + 1 = (i : Int) := by omega
  simp only [Option.map_some', boxClass, hcast]

/-- Witness for C7 at section 3, box 2. -/
theorem c7_progress_bar_boxes_witness :
    (progressBoxes 3).length = TOTAL_SECTIONS ∧
    (progressBoxes 3)[2 - 1]? =
      some (progressBox (if (2 : Int) ≤ 3 then "filled" else "empty")) :=
  ⟨(c7_progress_bar_boxes 3).2.1,
    (c7_progress_bar_boxes 3).2.2 2 (by decide) (by decide)⟩

/-- C8: local time is the UTC instant plus the offset split into whole
(truncated) hours and remainder minutes; formatting is
`{hour12}:{minute:02d}{AM/PM}` with hour 0 mapped to 12 and hours above 12
reduced by 12; in particular UTC `00:00` with offset `-6` formats as
`"6:00PM"` and UTC `12:00` with offset `+5.5` as `"5:30PM"`. -/
theorem c8_time_formatting :
    (∀ (u : Int) (q : ℚ), get_time_for_zone u q =
      u + truncRat q * 60 + truncRat ((q - (truncRat q : ℚ)) * 60)) ∧
    (∀ t : Int, format_time_short t =
      toString (to12Hour (hourOfInstant t)) ++ ":" ++ pad2 (minuteOfInstant t)
        ++ ampmOf (hourOfInstant t)) ∧
    format_time_short (get_time_for_zone 0 (-6 : ℚ)) = "6:00PM" ∧
    format_time_short (get_time_for_zone (12 * 60) (11/2 : ℚ)) = "5:30PM" := by
  have hm6 : get_time_for_zone 0 (-6 : ℚ) = -360 := by
    have h1 : truncRat (-6 : ℚ) = -6 := by
      rw [show (-6 : ℚ) = ((-6 : ℤ) : ℚ) by norm_num]
      unfold truncRat
      split
      · exact Int.floor_intCast (-6)
      · exact Int.ceil_intCast (-6)
    have h2 : ((-6 : ℚ) - (((-6 : ℤ) : ℤ) : ℚ)) * 60 = ((0 : ℤ) : ℚ) := by push_cast; ring
    have h0 : truncRat ((0 : ℤ) : ℚ) = 0 := by
      unfold truncRat
      split
      · exact Int.floor_intCast 0
      · exact Int.ceil_intCast 0
    simp only [get_time_for_zone, h1, h2, h0]
    norm_num
  have hp55 : get_time_for_zone (12 * 60) (11/2 : ℚ) = 1050 := by
    have h1 : truncRat (11/2 : ℚ) = 5 := by
      unfold truncRat
      rw [if_pos (by norm_num)]
      norm_num [Int.floor_eq_iff]
    have h2 : ((11/2 : ℚ) - (((5 : ℤ) : ℤ) : ℚ)) * 60 = ((30 : ℤ) : ℚ) := by push_cast; ring
    have h0 : truncRat ((30 : ℤ) : ℚ) = 30 := by
      unfold truncRat
      split
      · exact Int.floor_intCast 30
      · exact Int.ceil_intCast 30
    simp only [get_time_for_zone, h1, h2, h0]
    norm_num
  refine ⟨fun u q => rfl, fun t => rfl, ?_, ?_⟩
  · rw [hm6]
    decide
  · rw [hp55]
    decide

/-- C9: when two main-task rows `i < j` share the same stripped name, the
earlier row still appends its own task object exactly once to the bucket of
its category, but the name index does not retain that object (it points to
an index at least `j`), so the earlier object's subtask list stays empty and
every subtask row naming the shared parent attaches only to the object the
index retains. -/
theorem c9_duplicate_main_names (rows : List Row) (i j : Nat) (r r' : Row)
    (hij : i < j) (hi : rows[i]? = some r) (hj : rows[j]? = some r')
    (hmi : isMainRow r = true) (hmj : isMainRow r' = true)
    (hname : pyStrip r.task = pyStrip r'.task) :
    (∀ c, countOcc (i, r) (bucketEntriesFor rows c) = (if normCat r = c then 1 else 0)) ∧
    mainIndex rows (pyStrip r.task) ≠ some i ∧
    subtasksFor rows i = [] ∧
    (∀ k, mainIndex rows (pyStrip r.task) = some k → j ≤ k) ∧
    (∀ s ∈ rows, pyStrip s.parent = pyStrip r.task →
      ∀ k, s ∈ subRowsFor rows k → mainIndex rows (pyStrip r.task) = some k) := by
  have hmemi : (i, r) ∈ mainEntries rows := mem_mainEntries.mpr ⟨hi, hmi⟩
  have hmemj : (j, r') ∈ mainEntries rows := mem_mainEntries.mpr ⟨hj, hmj⟩
  have hne : mainIndex rows (pyStrip r.task) ≠ some i := by
    intro hcontra
    obtain ⟨-, -, -, hmax⟩ := mainIndex_eq_some hcontra
    have := hmax (j, r') hmemj hname.symm
    omega
  refine ⟨?_, hne, subtasksFor_eq_nil hmemi hne, ?_, ?_⟩
  · intro c
    by_cases hcat : normCat r = c
    · rw [if_pos hcat]
      exact countOcc_eq_one (bucketEntriesFor_nodup rows c)
        (mem_bucketEntriesFor.mpr ⟨hmemi, hcat⟩)
    · rw [if_neg hcat]
      exact countOcc_eq_zero (fun hmem' => hcat (mem_bucketEntriesFor.mp hmem').2)
  · intro k hk
    obtain ⟨-, -, -, hmax⟩ := mainIndex_eq_some hk
    exact hmax (j, r') hmemj hname.symm
  · intro s _ hspar k hk
    have := (mem_subRowsFor.mp hk).2.2
    rwa [hspar] at this

/-- Witness for C9: two main rows named `A` (the second with surrounding
whitespace) plus a subtask row naming `A`. -/
theorem c9_duplicate_main_names_witness :
    (∀ c, countOcc (0, Row.mk "vdpam" "A" "" "FALSE")
        (bucketEntriesFor
          [⟨"vdpam", "A", "", "FALSE"⟩, ⟨"vdl", " A ", "", "TRUE"⟩, ⟨"", "s", "A", "TRUE"⟩] c) =
      (if normCat (Row.mk "vdpam" "A" "" "FALSE") = c then 1 else 0)) ∧
    mainIndex [⟨"vdpam", "A", "", "FALSE"⟩, ⟨"vdl", " A ", "", "TRUE"⟩, ⟨"", "s", "A", "TRUE"⟩]
      (pyStrip (Row.mk "vdpam" "A" "" "FALSE").task) ≠ some 0 ∧
    subtasksFor [⟨"vdpam", "A", "", "FALSE"⟩, ⟨"vdl", " A ", "", "TRUE"⟩, ⟨"", "s", "A", "TRUE"⟩]
      0 = [] ∧
    (∀ k, mainIndex [⟨"vdpam", "A", "", "FALSE"⟩, ⟨"vdl", " A ", "", "TRUE"⟩, ⟨"", "s", "A", "TRUE"⟩]
        (pyStrip (Row.mk "vdpam" "A" "" "FALSE").task) = some k → 1 ≤ k) ∧
    (∀ s ∈ [⟨"vdpam", "A", "", "FALSE"⟩, ⟨"vdl", " A ", "", "TRUE"⟩,
        (⟨"", "s", "A", "TRUE"⟩ : Row)],
      pyStrip s.parent = pyStrip (Row.mk "vdpam" "A" "" "FALSE").task →
      ∀ k, s ∈ subRowsFor
          [⟨"vdpam", "A", "", "FALSE"⟩, ⟨"vdl", " A ", "", "TRUE"⟩, ⟨"", "s", "A", "TRUE"⟩] k →
        mainIndex [⟨"vdpam", "A", "", "FALSE"⟩, ⟨"vdl", " A ", "", "TRUE"⟩, ⟨"", "s", "A", "TRUE"⟩]
          (pyStrip (Row.mk "vdpam" "A" "" "FALSE").task) = some k) :=
  c9_duplicate_main_names
    [⟨"vdpam", "A", "", "FALSE"⟩, ⟨"vdl", " A ", "", "TRUE"⟩, ⟨"", "s", "A", "TRUE"⟩]
    0 1 (Row.mk "vdpam" "A" "" "FALSE") (Row.mk "vdl" " A " "" "TRUE")
    (by decide) (by decide) (by decide) (by decide) (by decide) (by decide)

/-- Two rows agreeing on everything the fetcher's matching inspects: the
stripped task name, the stripped parent name, the normalized done flag and
the stripped-lowercased category. -/
structure RowEquiv (r r' : Row) : Prop where
  task_eq : pyStrip r.task = pyStrip r'.task
  parent_eq : pyStrip r.parent = pyStrip r'.parent
  done_eq : normDone r.done = normDone r'.done
  cat_eq : normCat r = normCat r'

theorem forall₂_filter_congr {α : Type} {R : α → α → Prop} {p q : α → Bool}
    (hpq : ∀ a b, R a b → p a = q b) :
    ∀ {l l' : List α}, List.Forall₂ R l l' → List.Forall₂ R (l.filter p) (l'.filter q) := by
  intro l l' h
  induction h with
  | nil => exact List.Forall₂.nil
  | @cons a b l1 l2 ha ht ih =>
    by_cases hp : p a
    · rw [List.filter_cons_of_pos hp, List.filter_cons_of_pos (by rw [← hpq a b ha]; exact hp)]
      exact List.Forall₂.cons ha ih
    · rw [List.filter_cons_of_neg hp, List.filter_cons_of_neg (by rw [← hpq a b ha]; exact hp)]
      exact ih

theorem forall₂_map_eq {α β : Type} {R : α → α → Prop} {f g : α → β}
    (hfg : ∀ a b, R a b → f a = g b) :
    ∀ {l l' : List α}, List.Forall₂ R l l' → l.map f = l'.map g := by
  intro l l' h
  induction h with
  | nil => rfl
  | cons ha _ ih => simp only [List.map_cons, hfg _ _ ha, ih]

theorem forall₂_getLast?_rel {α : Type} {R : α → α → Prop} :
    ∀ {l l' : List α}, List.Forall₂ R l l' →
      (l.getLast? = none ∧ l'.getLast? = none) ∨
      ∃ a b, R a b ∧ l.getLast? = some a ∧ l'.getLast? = some b := by
  intro l l' h
  induction h with
  | nil => exact Or.inl ⟨rfl, rfl⟩
  | @cons a b l1 l2 ha ht ih =>
    rcases ih with ⟨h1, h2⟩ | ⟨x, y, hxy, hx, hy⟩
    · have e1 : l1 = [] := List.getLast?_eq_none_iff.mp h1
      have e2 : l2 = [] := List.getLast?_eq_none_iff.mp h2
      subst e1
      subst e2
      exact Or.inr ⟨a, b, ha, List.getLast?_singleton a, List.getLast?_singleton b⟩
    · refine Or.inr ⟨x, y, hxy, ?_, ?_⟩
      · cases l1 with
        | nil => simp at hx
        | cons c t => rw [List.getLast?_cons_cons]; exact hx
      · cases l2 with
        | nil => simp at hy
        | cons c t => rw [List.getLast?_cons_cons]; exact hy

theorem rowEquiv_isMainRow {r r' : Row} (h : RowEquiv r r') :
    isMainRow r = isMainRow r' := by
  unfold isMainRow
  rw [h.task_eq, h.parent_eq]

theorem enumRowsFrom_rel {rows rows' : List Row} (h : List.Forall₂ RowEquiv rows rows') :
    ∀ n, List.Forall₂ (fun p q => p.1 = q.1 ∧ RowEquiv p.2 q.2)
      (enumRowsFrom n rows) (enumRowsFrom n rows') := by
  induction h with
  | nil => intro n; exact List.Forall₂.nil
  | cons ha _ ih => intro n; exact List.Forall₂.cons ⟨rfl, ha⟩ (ih (n + 1))

theorem mainEntries_rel {rows rows' : List Row} (h : List.Forall₂ RowEquiv rows rows') :
    List.Forall₂ (fun p q => p.1 = q.1 ∧ RowEquiv p.2 q.2)
      (mainEntries rows) (mainEntries rows') :=
  forall₂_filter_congr (fun _ _ hab => rowEquiv_isMainRow hab.2) (enumRowsFrom_rel h 0)

theorem mainIndex_congr {rows rows' : List Row} (h : List.Forall₂ RowEquiv rows rows')
    (n : String) : mainIndex rows n = mainIndex rows' n := by
  have hrel : List.Forall₂ (fun p q => p.1 = q.1 ∧ RowEquiv p.2 q.2)
      (mainNamed rows n) (mainNamed rows' n) := by
    unfold mainNamed
    exact forall₂_filter_congr (fun a b hab => by rw [hab.2.task_eq]) (mainEntries_rel h)
  unfold mainIndex
  rcases forall₂_getLast?_rel hrel with ⟨h1, h2⟩ | ⟨x, y, hxy, hx, hy⟩
  · rw [h1, h2]
  · rw [hx, hy]
    simp only [Option.map_some', hxy.1]

theorem subRowsFor_rel {rows rows' : List Row} (h : List.Forall₂ RowEquiv rows rows')
    (idx : Nat) : List.Forall₂ RowEquiv (subRowsFor rows idx) (subRowsFor rows' idx) := by
  unfold subRowsFor
  refine forall₂_filter_congr (fun a b hab => ?_) h
  rw [hab.parent_eq, mainIndex_congr h]

theorem subtasksFor_congr {rows rows' : List Row} (h : List.Forall₂ RowEquiv rows rows')
    (idx : Nat) : subtasksFor rows idx = subtasksFor rows' idx := by
  unfold subtasksFor
  exact forall₂_map_eq (fun a b hab => by rw [hab.task_eq, hab.done_eq])
    (subRowsFor_rel h idx)

theorem bucketFor_congr {rows rows' : List Row} (h : List.Forall₂ RowEquiv rows rows')
    (c : String) : bucketFor rows c = bucketFor rows' c := by
  unfold bucketFor bucketEntriesFor
  refine forall₂_map_eq (fun a b hab => ?_)
    (forall₂_filter_congr (fun a b hab => by rw [hab.2.cat_eq]) (mainEntries_rel h))
  unfold buildTask
  rw [hab.2.task_eq, hab.2.done_eq, hab.1, subtasksFor_congr h]

theorem parseTasks_congr {rows rows' : List Row}
    (h : List.Forall₂ RowEquiv rows rows') : parseTasks rows = parseTasks rows' := by
  unfold parseTasks
  have hfun : (fun c => (c, bucketFor rows c)) = (fun c => (c, bucketFor rows' c)) :=
    funext (fun c => by rw [bucketFor_congr h c])
  rw [hfun]

/-- C10: the fetcher's result depends on a row's category only through
strip-and-lowercase (case- and whitespace-insensitive) and on its task and
parent names only through stripping (whitespace-insensitive but
case-sensitive): row lists agreeing on those normalized views parse
identically, parent matching tolerates surrounding whitespace but a
case-changed parent is dropped, and a case-changed task name is a distinct
main task. -/
theorem c10_matching_normalization (rows rows' : List Row)
    (h : List.Forall₂ RowEquiv rows rows') :
    parseTasks rows = parseTasks rows' ∧
    parseTasks [⟨" VdPaM ", "A", "", "TRUE"⟩] = parseTasks [⟨"vdpam", "A", "", "TRUE"⟩] ∧
    parseTasks [⟨"vdpam", "A", "", "FALSE"⟩, ⟨"", "s", " A ", "TRUE"⟩] =
      [("vdpam", [⟨"A", false, [⟨"s", true⟩]⟩]), ("vdl", []), ("personal", [])] ∧
    parseTasks [⟨"vdpam", "A", "", "FALSE"⟩, ⟨"", "s", "a", "TRUE"⟩] =
      [("vdpam", [⟨"A", false, []⟩]), ("vdl", []), ("personal", [])] ∧
    parseTasks [⟨"vdpam", "A", "", "FALSE"⟩, ⟨"vdl", "a", "", "FALSE"⟩,
        ⟨"", "s", "A", "TRUE"⟩] =
      [("vdpam", [⟨"A", false, [⟨"s", true⟩]⟩]), ("vdl", [⟨"a", false, []⟩]),
        ("personal", [])] :=
  ⟨parseTasks_congr h, by decide, by decide, by decide, by decide⟩

/-- Witness for C10: a row with shouting category, padded fields and odd-case
done flag parses like its normalized form. -/
theorem c10_matching_normalization_witness :
    parseTasks [⟨" VDL ", "T", " P ", " true "⟩] = parseTasks [⟨"vdl", "T", "P", "TRUE"⟩] ∧
    parseTasks [⟨" VdPaM ", "A", "", "TRUE"⟩] = parseTasks [⟨"vdpam", "A", "", "TRUE"⟩] :=
  ⟨(c10_matching_normalization [⟨" VDL ", "T", " P ", " true "⟩] [⟨"vdl", "T", "P", "TRUE"⟩]
      (List.Forall₂.cons ⟨by decide, by decide, by decide, by decide⟩ List.Forall₂.nil)).1,
    (c10_matching_normalization [⟨" VDL ", "T", " P ", " true "⟩] [⟨"vdl", "T", "P", "TRUE"⟩]
      (List.Forall₂.cons ⟨by decide, by decide, by decide, by decide⟩ List.Forall₂.nil)).2.1⟩

end TaskDashboard
